import Mathlib

/-!
Verification of the lead-consolidation tool (`app.py`): a batch pipeline that
normalizes phone numbers, validates input schemas, aggregates call-detail
records (CDR) per phone key, and left-joins the aggregates onto a
provider-filtered lead table (MIS).

The pandas pipeline is embedded shallowly: tables are lists of records,
`groupby` becomes per-key filtering, `merge(how="left")` becomes an explicit
left join, and the datetime parser (`pd.to_datetime`) is an abstract parameter
since it is library behaviour, not repository code.
-/

namespace LeadTool

/-! ### Phone normalizer (`clean_phone`, app.py lines 38-44)

`series.astype(str).str.replace(r"\.0$","").str.replace(r"\D","").str[-10:]`.
A missing (NaN) cell becomes the string "nan" under `astype(str)`, hence an
empty digit string; `clean_phone` never yields a missing value. -/

/-- `.str.replace(r"\.0$", "", regex=True)`: remove one trailing ".0". -/
def stripDotZero (l : List Char) : List Char :=
  match l.reverse with
  | '0' :: '.' :: rest => rest.reverse
  | _ => l

/-- `.str.replace(r"\D", "", regex=True)`: keep only digit characters. -/
def keepDigits (l : List Char) : List Char :=
  l.filter Char.isDigit

/-- `.str[-10:]`: the last 10 characters (all of them when fewer). -/
def lastTen (l : List Char) : List Char :=
  l.drop (l.length - 10)

/-- `clean_phone` applied to one cell already rendered as a string. -/
def clean_phone (s : String) : String :=
  ⟨lastTen (keepDigits (stripDotZero s.data))⟩

example : clean_phone "+91 98765-43210" = "9876543210" := by decide
example : clean_phone "9876543210.0" = "9876543210" := by decide
example : clean_phone "N/A" = "" := by decide
example : clean_phone "123456789012" = "3456789012" := by decide

lemma stripDotZero_of_digits (l : List Char) (h : ∀ c ∈ l, c.isDigit = true) :
    stripDotZero l = l := by
  unfold stripDotZero
  split
  · rename_i rest heq
    exfalso
    have hdot : '.' ∈ l.reverse := by rw [heq]; simp
    have := h '.' (List.mem_reverse.mp hdot)
    simp [Char.isDigit] at this
  · rfl

lemma keepDigits_of_digits (l : List Char) (h : ∀ c ∈ l, c.isDigit = true) :
    keepDigits l = l :=
  List.filter_eq_self.mpr h

/-! ### Data model

An MIS (lead) row carries many identity columns; only `ProviderName` (nullable,
used by the filter) and `ContactNo` (string form of the raw cell) influence the
pipeline, so only those are modelled as record fields.  A raw CDR row carries
the five required columns, each in its `astype(str)` form. -/

structure MisRaw where
  providerName : Option String
  contactNo : String
deriving DecidableEq, Repr

structure CdrRaw where
  customerNumber : String
  callStatus : String
  dispositionName : String
  callStartDate : String
  callStartTime : String
deriving DecidableEq, Repr

/-- A CDR row after phone cleaning and datetime parsing (app.py 157-165). -/
structure CdrRow where
  phone : String
  callStatus : String
  dispositionName : String
  datetime : Int
deriving DecidableEq, Repr

/-- `mis[mis["ProviderName"].isin(selected_providers)]` (app.py 136): a null
provider name is a member of no selection. -/
def misFiltered (mis : List MisRaw) (sel : List String) : List MisRaw :=
  mis.filter (fun m =>
    match m.providerName with
    | some p => sel.contains p
    | none => false)

/-- CDR preparation (app.py 157-165): `phone = clean_phone(Customer Number)`;
`call_datetime = to_datetime(date + " " + time, errors="coerce")`;
`dropna(subset=["phone", "call_datetime"])`.  The datetime parser is an
abstract parameter (it is pandas library behaviour).  `clean_phone` always
returns a string — never a missing value — so the `dropna` can only discard
rows whose datetime failed to parse. -/
def prepCdr (parseDT : String → Option Int) (raw : List CdrRaw) : List CdrRow :=
  raw.filterMap (fun r =>
    match parseDT (r.callStartDate ++ " " ++ r.callStartTime) with
    | some t => some ⟨clean_phone r.customerNumber, r.callStatus, r.dispositionName, t⟩
    | none => none)

/-! ### Call aggregation (app.py 171-184)

`groupby("phone")` semantics: one output row per distinct phone, in order of
first appearance, whose group is the sublist of rows bearing that phone. -/

/-- The distinct phone keys of a CDR table. -/
def phonesOf (cdr : List CdrRow) : List String :=
  (cdr.map (fun r => r.phone)).dedup

/-- The `groupby` group of one phone key. -/
def callsFor (cdr : List CdrRow) (p : String) : List CdrRow :=
  cdr.filter (fun r => r.phone == p)

/-- `cdr.groupby("phone").size()` — the `Total_Attempts` table (app.py 171). -/
def attemptTable (cdr : List CdrRow) : List (String × Nat) :=
  (phonesOf cdr).map (fun p => (p, (callsFor cdr p).length))

/-- `cdr[cdr["Call Status"] == "Answered"]` (app.py 174). -/
def answeredOnly (cdr : List CdrRow) : List CdrRow :=
  cdr.filter (fun r => r.callStatus == "Answered")

/-- The `Connected_Attempts` table (app.py 173-178). -/
def connectedTable (cdr : List CdrRow) : List (String × Nat) :=
  attemptTable (answeredOnly cdr)

/-- Maximum of a list of timestamps (`groupby(...).max()` on one group). -/
def listMax : List Int → Option Int
  | [] => none
  | x :: xs => some (xs.foldl max x)

/-- Minimum of a list of timestamps (`groupby(...).min()` on one group). -/
def listMin : List Int → Option Int
  | [] => none
  | x :: xs => some (xs.foldl min x)

/-- `cdr.groupby("phone")["call_datetime"].min()` — `First_Call_Date`. -/
def firstTable (cdr : List CdrRow) : List (String × Int) :=
  (phonesOf cdr).filterMap (fun p =>
    (listMin ((callsFor cdr p).map (fun r => r.datetime))).map (fun t => (p, t)))

/-- `cdr.groupby("phone")["call_datetime"].max()` — `Last_Call_Date`. -/
def lastTable (cdr : List CdrRow) : List (String × Int) :=
  (phonesOf cdr).filterMap (fun p =>
    (listMax ((callsFor cdr p).map (fun r => r.datetime))).map (fun t => (p, t)))

/-- Descending comparison on call timestamps (`ascending=False`). -/
def cdrGE (a b : CdrRow) : Prop := b.datetime ≤ a.datetime

instance : DecidableRel cdrGE := fun a b =>
  inferInstanceAs (Decidable (b.datetime ≤ a.datetime))

instance : IsTotal CdrRow cdrGE := ⟨fun a b => le_total b.datetime a.datetime⟩

instance : IsTrans CdrRow cdrGE := ⟨fun _ _ _ hab hbc => le_trans hbc hab⟩

/-- `cdr.sort_values("call_datetime", ascending=False)` (app.py 183). -/
def sortDesc (cdr : List CdrRow) : List CdrRow :=
  List.insertionSort cdrGE cdr

/-- `drop_duplicates("phone")` (app.py 184): keep the first row seen for each
phone, in order; `seen` accumulates the phones already kept. -/
def dedupByPhone : List CdrRow → List String → List CdrRow
  | [], _ => []
  | r :: rest, seen =>
    if seen.contains r.phone then dedupByPhone rest seen
    else r :: dedupByPhone rest (r.phone :: seen)

/-- The `last_disposition` table (app.py 183-184): one row per phone, bearing
the `Disposition Name` and `Call Status` of its chronologically last call. -/
def lastDispoTable (cdr : List CdrRow) : List CdrRow :=
  dedupByPhone (sortDesc cdr) []

/-! ### Lead merge (app.py 187-198) -/

/-- A lead row mid-merge: the call-derived columns are `none` until the
corresponding `merge` has run, and stay `none` when unmatched (pandas NaN). -/
structure Merged where
  mis : MisRaw
  phone : String
  totalAttempts : Option Nat
  connectedAttempts : Option Nat
  firstCallDate : Option Int
  lastCallDate : Option Int
  lastDisposition : Option String
  lastCallStatus : Option String
deriving DecidableEq, Repr

/-- `left.merge(right, on=key, how="left")`: each left row is paired with every
right row sharing its key, or kept once with a missing match when none does. -/
def leftMerge {α β γ : Type} (left : List α) (right : List β)
    (lk : α → String) (rk : β → String) (comb : α → Option β → γ) : List γ :=
  match left with
  | [] => []
  | a :: rest =>
    (match right.filter (fun b => rk b == lk a) with
     | [] => [comb a none]
     | ms => ms.map (fun b => comb a (some b))) ++ leftMerge rest right lk rk comb

/-- A fully merged output row after `fillna` and the `NotConnected_Attempts`
column (app.py 193-198).  Only the two count columns are filled with 0; the
other call-derived columns keep their missing values when unmatched. -/
structure FinalRow where
  mis : MisRaw
  phone : String
  totalAttempts : Nat
  connectedAttempts : Nat
  firstCallDate : Option Int
  lastCallDate : Option Int
  lastDisposition : Option String
  lastCallStatus : Option String
  notConnectedAttempts : Int
deriving DecidableEq, Repr

/-- `fillna({"Total_Attempts": 0, "Connected_Attempts": 0})` followed by
`NotConnected_Attempts = Total_Attempts - Connected_Attempts`. -/
def fillDefaults (a : Merged) : FinalRow :=
  { mis := a.mis
    phone := a.phone
    totalAttempts := a.totalAttempts.getD 0
    connectedAttempts := a.connectedAttempts.getD 0
    firstCallDate := a.firstCallDate
    lastCallDate := a.lastCallDate
    lastDisposition := a.lastDisposition
    lastCallStatus := a.lastCallStatus
    notConnectedAttempts := (a.totalAttempts.getD 0 : Int) - (a.connectedAttempts.getD 0 : Int) }

/-- The whole merge pipeline (app.py 136-198): filter leads by provider, clean
their phones, left-join the five per-phone call tables, fill defaults. -/
def finalTable (mis : List MisRaw) (sel : List String) (cdr : List CdrRow) : List FinalRow :=
  let rows0 := (misFiltered mis sel).map
    (fun m => Merged.mk m (clean_phone m.contactNo) none none none none none none)
  let rows1 := leftMerge rows0 (attemptTable cdr) Merged.phone Prod.fst
    (fun a b => { a with totalAttempts := b.map Prod.snd })
  let rows2 := leftMerge rows1 (connectedTable cdr) Merged.phone Prod.fst
    (fun a b => { a with connectedAttempts := b.map Prod.snd })
  let rows3 := leftMerge rows2 (firstTable cdr) Merged.phone Prod.fst
    (fun a b => { a with firstCallDate := b.map Prod.snd })
  let rows4 := leftMerge rows3 (lastTable cdr) Merged.phone Prod.fst
    (fun a b => { a with lastCallDate := b.map Prod.snd })
  let rows5 := leftMerge rows4 (lastDispoTable cdr) Merged.phone CdrRow.phone
    (fun a b => { a with lastDisposition := b.map CdrRow.dispositionName
                         lastCallStatus := b.map CdrRow.callStatus })
  rows5.map fillDefaults

/-! ### Schema validation and the run (app.py 60-165) -/

def requiredMisCols : List String :=
  ["CorporateName", "RequestDate", "ContractName", "PatientName",
   "ApplicationId", "PolicyNo", "Gender", "RelationShip", "EmailId",
   "ContactNo", "NoOfReschedule", "ProviderName", "ProviderState"]

def requiredCdrCols : List String :=
  ["Customer Number", "Call Status", "Disposition Name",
   "Call Start Date", "Call Start Time"]

/-- The `for col in required: if col not in df.columns: error; stop` loop
(app.py 70-73 and 151-154): the first required column that is absent. -/
def firstMissing (required cols : List String) : Option String :=
  required.find? (fun c => !(cols.contains c))

inductive RunError where
  | schema : String → String → RunError
  | emptySelection : RunError
deriving DecidableEq, Repr

/-- One analysis run: MIS schema check (app.py 70-73), empty-selection check
(app.py 130-132), CDR schema check (app.py 151-154), then the pipeline.  Any
error halts the run before any output row is produced. -/
def runAnalysis (parseDT : String → Option Int) (misCols : List String)
    (mis : List MisRaw) (cdrCols : List String) (cdrRaw : List CdrRaw)
    (sel : List String) : Except RunError (List FinalRow) :=
  match firstMissing requiredMisCols misCols with
  | some c => .error (.schema "MIS" c)
  | none =>
    if sel.isEmpty then .error .emptySelection
    else
      match firstMissing requiredCdrCols cdrCols with
      | some c => .error (.schema "CDR" c)
      | none => .ok (finalTable mis sel (prepCdr parseDT cdrRaw))

/-! ### Dashboard metrics (app.py 208-213) -/

/-- `final["Total_Attempts"].sum()`. -/
def totalCallsMetric (f : List FinalRow) : Nat :=
  (f.map (fun r => r.totalAttempts)).sum

/-- `final["Connected_Attempts"].sum()`. -/
def connectedCallsMetric (f : List FinalRow) : Nat :=
  (f.map (fun r => r.connectedAttempts)).sum

/-- The Connection Rate metric (app.py 211-213): the quotient is only formed
under the strict-positivity guard; otherwise the literal `0%`. -/
def connectionRate (f : List FinalRow) : ℚ :=
  if 0 < totalCallsMetric f then
    (connectedCallsMetric f : ℚ) / (totalCallsMetric f : ℚ) * 100
  else 0

/-- What one output row looks like once each phone-key-unique call table is
accessed through its (at most one) matching row; `finalTable_eq_map` below
proves the pipeline equal to mapping this over the filtered leads. -/
def lookupRow (cdr : List CdrRow) (m : MisRaw) : FinalRow :=
  fillDefaults
    { mis := m
      phone := clean_phone m.contactNo
      totalAttempts :=
        ((attemptTable cdr).find? (fun x => x.1 == clean_phone m.contactNo)).map Prod.snd
      connectedAttempts :=
        ((connectedTable cdr).find? (fun x => x.1 == clean_phone m.contactNo)).map Prod.snd
      firstCallDate :=
        ((firstTable cdr).find? (fun x => x.1 == clean_phone m.contactNo)).map Prod.snd
      lastCallDate :=
        ((lastTable cdr).find? (fun x => x.1 == clean_phone m.contactNo)).map Prod.snd
      lastDisposition :=
        ((lastDispoTable cdr).find? (fun r => r.phone == clean_phone m.contactNo)).map
          CdrRow.dispositionName
      lastCallStatus :=
        ((lastDispoTable cdr).find? (fun r => r.phone == clean_phone m.contactNo)).map
          CdrRow.callStatus }

/-- The normalized phone keys of the provider-filtered leads. -/
def leadPhones (mis : List MisRaw) (sel : List String) : List String :=
  (misFiltered mis sel).map (fun m => clean_phone m.contactNo)

/-! Concrete data for witnesses: the spec's sample scenario (one "Acme" lead,
two calls to its phone, one answered) and a digit-less phone number. -/

def misEx : List MisRaw := [⟨some "Acme", "+91 98765-43210"⟩]

def cdrEx : List CdrRow :=
  [⟨"9876543210", "Answered", "D1", 0⟩,
   ⟨"9876543210", "No Answer", "D2", 25⟩]

def rowEx : FinalRow :=
  ⟨⟨some "Acme", "+91 98765-43210"⟩, "9876543210", 2, 1,
    some 0, some 25, some "D2", some "No Answer", 1⟩

/-- A concrete datetime parser accepting one timestamp. -/
def parseEx : String → Option Int :=
  fun s => if s = "2024-01-01 10:00" then some 0 else none

/-! ### Generic lemmas about the left join -/

lemma filter_key_of_nodup {β : Type} (right : List β) (rk : β → String) (k : String)
    (h : (right.map rk).Nodup) :
    right.filter (fun b => rk b == k) = (right.find? (fun b => rk b == k)).toList := by
  induction right with
  | nil => rfl
  | cons b rest ih =>
    rw [List.map_cons, List.nodup_cons] at h
    by_cases hb : rk b = k
    · rw [List.filter_cons_of_pos (by simpa using hb), List.find?_cons_of_pos _ (by simpa using hb)]
      have hrest : rest.filter (fun x => rk x == k) = [] := by
        rw [List.filter_eq_nil_iff]
        intro x hx hxk
        exact h.1 (hb ▸ (by simpa using hxk) ▸ List.mem_map_of_mem rk hx)
      simp [hrest]
    · rw [List.filter_cons_of_neg (by simpa using hb), List.find?_cons_of_neg _ (by simpa using hb)]
      exact ih h.2

lemma leftMerge_eq_map {α β γ : Type} (left : List α) (right : List β)
    (lk : α → String) (rk : β → String) (comb : α → Option β → γ)
    (h : (right.map rk).Nodup) :
    leftMerge left right lk rk comb =
      left.map (fun a => comb a (right.find? (fun b => rk b == lk a))) := by
  induction left with
  | nil => rfl
  | cons a rest ih =>
    show (match right.filter (fun b => rk b == lk a) with
      | [] => [comb a none]
      | ms => ms.map (fun b => comb a (some b))) ++ leftMerge rest right lk rk comb = _
    rw [filter_key_of_nodup right rk (lk a) h]
    cases hf : right.find? (fun b => rk b == lk a) with
    | none => simp [hf, ih]
    | some b => simp [hf, ih]

/-! ### Key uniqueness and lookup characterization of the five call tables -/

lemma mem_phonesOf (cdr : List CdrRow) (p : String) :
    p ∈ phonesOf cdr ↔ callsFor cdr p ≠ [] := by
  rw [phonesOf, List.mem_dedup, List.mem_map]
  constructor
  · rintro ⟨r, hr, rfl⟩ hnil
    have : r ∈ callsFor cdr r.phone := List.mem_filter.mpr ⟨hr, by simp⟩
    simp [hnil] at this
  · intro hnil
    rcases List.exists_mem_of_ne_nil _ hnil with ⟨r, hr⟩
    rcases List.mem_filter.mp hr with ⟨hmem, hp⟩
    exact ⟨r, hmem, by simpa using hp⟩

lemma find?_pairTable {β : Type} (l : List String) (g : String → Option β) (p : String) :
    (l.filterMap (fun q => (g q).map (fun t => (q, t)))).find? (fun x => x.1 == p) =
      if p ∈ l then (g p).map (fun t => (p, t)) else none := by
  induction l with
  | nil => rfl
  | cons a rest ih =>
    by_cases hap : a = p
    · subst hap
      cases hg : g a with
      | none =>
        rw [List.filterMap_cons, hg, Option.map_none', ih]
        simp [hg]
      | some t =>
        rw [List.filterMap_cons, hg]
        simp only [Option.map_some']
        rw [List.find?_cons_of_pos _ (by simp)]
        simp [hg]
    · have hpa : (p = a) = False := eq_false (fun h => hap h.symm)
      cases hg : g a with
      | none =>
        rw [List.filterMap_cons, hg, Option.map_none', ih]
        simp [List.mem_cons, hpa]
      | some t =>
        rw [List.filterMap_cons, hg]
        simp only [Option.map_some']
        rw [List.find?_cons_of_neg _ (by simpa using hap), ih]
        simp [List.mem_cons, hpa]

lemma attemptTable_eq_pairTable (cdr : List CdrRow) :
    attemptTable cdr = (phonesOf cdr).filterMap
      (fun q => (some ((callsFor cdr q).length)).map (fun t => (q, t))) := by
  rw [attemptTable]
  induction phonesOf cdr with
  | nil => rfl
  | cons a rest ih => simp only [List.map_cons, List.filterMap_cons, Option.map_some', ih]

lemma attemptTable_find? (cdr : List CdrRow) (p : String) :
    (attemptTable cdr).find? (fun x => x.1 == p) =
      if callsFor cdr p = [] then none else some (p, (callsFor cdr p).length) := by
  rw [attemptTable_eq_pairTable, find?_pairTable]
  by_cases hmem : p ∈ phonesOf cdr
  · rw [if_pos hmem, if_neg ((mem_phonesOf cdr p).mp hmem)]
    rfl
  · rw [if_neg hmem, if_pos (by by_contra hne; exact hmem ((mem_phonesOf cdr p).mpr hne))]

lemma firstTable_find? (cdr : List CdrRow) (p : String) :
    (firstTable cdr).find? (fun x => x.1 == p) =
      (listMin ((callsFor cdr p).map (fun r => r.datetime))).map (fun t => (p, t)) := by
  rw [firstTable, find?_pairTable]
  by_cases hmem : p ∈ phonesOf cdr
  · rw [if_pos hmem]
  · rw [if_neg hmem]
    have : callsFor cdr p = [] := by
      by_contra hne; exact hmem ((mem_phonesOf cdr p).mpr hne)
    simp [this, listMin]

lemma lastTable_find? (cdr : List CdrRow) (p : String) :
    (lastTable cdr).find? (fun x => x.1 == p) =
      (listMax ((callsFor cdr p).map (fun r => r.datetime))).map (fun t => (p, t)) := by
  rw [lastTable, find?_pairTable]
  by_cases hmem : p ∈ phonesOf cdr
  · rw [if_pos hmem]
  · rw [if_neg hmem]
    have : callsFor cdr p = [] := by
      by_contra hne; exact hmem ((mem_phonesOf cdr p).mpr hne)
    simp [this, listMax]

lemma dedupByPhone_find? (l : List CdrRow) (seen : List String) (p : String)
    (hp : seen.contains p = false) :
    (dedupByPhone l seen).find? (fun r => r.phone == p) = l.find? (fun r => r.phone == p) := by
  induction l generalizing seen with
  | nil => rfl
  | cons r rest ih =>
    rw [dedupByPhone]
    by_cases hseen : seen.contains r.phone
    · rw [if_pos hseen]
      have hne : ¬ r.phone = p := by
        intro hrp
        rw [hrp] at hseen
        rw [hseen] at hp
        exact absurd hp (by simp)
      rw [List.find?_cons_of_neg _ (by simpa using hne)]
      exact ih seen hp
    · rw [if_neg hseen]
      by_cases hrp : r.phone = p
      · rw [List.find?_cons_of_pos _ (by simpa using hrp),
          List.find?_cons_of_pos _ (by simpa using hrp)]
      · rw [List.find?_cons_of_neg _ (by simpa using hrp),
          List.find?_cons_of_neg _ (by simpa using hrp)]
        refine ih (r.phone :: seen) ?_
        have hpr : ¬ p = r.phone := fun h => hrp h.symm
        simp [hp, hpr]
        simpa using hp

/-! ### Each call-side table is phone-key unique -/

lemma attemptTable_keys (cdr : List CdrRow) :
    (attemptTable cdr).map Prod.fst = phonesOf cdr := by
  rw [attemptTable, List.map_map]
  induction phonesOf cdr with
  | nil => rfl
  | cons a rest ih =>
    rw [List.map_cons, ih]
    rfl

lemma attemptTable_keys_nodup (cdr : List CdrRow) :
    ((attemptTable cdr).map Prod.fst).Nodup := by
  rw [attemptTable_keys]
  exact List.nodup_dedup _

lemma pairTable_keys_sublist {β : Type} (l : List String) (g : String → Option β) :
    ((l.filterMap (fun q => (g q).map (fun t => (q, t)))).map Prod.fst).Sublist l := by
  induction l with
  | nil => simp
  | cons a rest ih =>
    rw [List.filterMap_cons]
    cases hg : g a with
    | none => exact ih.cons a
    | some t =>
      simp only [Option.map_some', List.map_cons]
      exact ih.cons₂ a

lemma connectedTable_keys_nodup (cdr : List CdrRow) :
    ((connectedTable cdr).map Prod.fst).Nodup := by
  rw [connectedTable]
  exact attemptTable_keys_nodup _

lemma firstTable_keys_nodup (cdr : List CdrRow) :
    ((firstTable cdr).map Prod.fst).Nodup := by
  rw [firstTable]
  exact (List.nodup_dedup _).sublist (pairTable_keys_sublist _ _)

lemma lastTable_keys_nodup (cdr : List CdrRow) :
    ((lastTable cdr).map Prod.fst).Nodup := by
  rw [lastTable]
  exact (List.nodup_dedup _).sublist (pairTable_keys_sublist _ _)

lemma dedupByPhone_nodup_aux (l : List CdrRow) : ∀ seen : List String,
    ((dedupByPhone l seen).map (fun r => r.phone)).Nodup ∧
      ∀ x ∈ dedupByPhone l seen, seen.contains x.phone = false := by
  induction l with
  | nil =>
    intro seen
    exact ⟨List.nodup_nil, by intro x hx; cases hx⟩
  | cons r rest ih =>
    intro seen
    rw [dedupByPhone]
    by_cases hseen : seen.contains r.phone
    · rw [if_pos hseen]
      exact ih seen
    · rw [if_neg hseen]
      obtain ⟨ihn, ihm⟩ := ih (r.phone :: seen)
      constructor
      · rw [List.map_cons, List.nodup_cons]
        refine ⟨?_, ihn⟩
        intro hmem
        rcases List.mem_map.mp hmem with ⟨x, hx, hxp⟩
        have hxc := ihm x hx
        rw [hxp] at hxc
        simp at hxc
      · intro x hx
        rcases List.mem_cons.mp hx with rfl | hx'
        · simpa using hseen
        · have hxc := ihm x hx'
          simp only [List.contains_cons] at hxc
          simp at hxc ⊢
          exact hxc.2

lemma lastDispoTable_keys_nodup (cdr : List CdrRow) :
    ((lastDispoTable cdr).map (fun r => r.phone)).Nodup :=
  (dedupByPhone_nodup_aux (sortDesc cdr) []).1

/-! ### The merge pipeline as a per-lead lookup -/

theorem finalTable_eq_map (mis : List MisRaw) (sel : List String) (cdr : List CdrRow) :
    finalTable mis sel cdr = (misFiltered mis sel).map (lookupRow cdr) := by
  simp only [finalTable]
  rw [leftMerge_eq_map _ _ _ _ _ (attemptTable_keys_nodup cdr),
    leftMerge_eq_map _ _ _ _ _ (connectedTable_keys_nodup cdr),
    leftMerge_eq_map _ _ _ _ _ (firstTable_keys_nodup cdr),
    leftMerge_eq_map _ _ _ _ _ (lastTable_keys_nodup cdr),
    leftMerge_eq_map _ _ _ _ _ (lastDispoTable_keys_nodup cdr)]
  simp only [List.map_map]
  rfl

/-! ### Relating the connected group to the attempt group -/

lemma callsFor_answeredOnly (cdr : List CdrRow) (p : String) :
    callsFor (answeredOnly cdr) p =
      (callsFor cdr p).filter (fun r => r.callStatus == "Answered") := by
  rw [callsFor, answeredOnly, callsFor, List.filter_filter, List.filter_filter]
  congr 1
  funext r
  exact Bool.and_comm _ _

lemma lastDispoTable_find?_none (cdr : List CdrRow) (p : String)
    (hno : callsFor cdr p = []) :
    (lastDispoTable cdr).find? (fun r => r.phone == p) = none := by
  rw [lastDispoTable, dedupByPhone_find? _ _ _ (by simp), List.find?_eq_none]
  intro x hx
  have hxc : x ∈ cdr := (List.perm_insertionSort cdrGE cdr).mem_iff.mp hx
  have := List.filter_eq_nil_iff.mp hno x hxc
  simpa using this

/-! ### Claim theorems -/

/-- C5: for a pure digit string of length at least 10, `clean_phone` returns
exactly its last 10 characters (in particular a string of exactly 10 digits is
returned unchanged, so `clean_phone` is idempotent on 10-digit keys). -/
theorem clean_phone_last_ten (s : String) (h : ∀ c ∈ s.data, c.isDigit = true) :
    (10 ≤ s.data.length → clean_phone s = ⟨s.data.drop (s.data.length - 10)⟩) ∧
    (s.data.length = 10 → clean_phone s = s) := by
  have h1 : clean_phone s = ⟨lastTen s.data⟩ := by
    rw [clean_phone, stripDotZero_of_digits _ h, keepDigits_of_digits _ h]
  constructor
  · intro _
    rw [h1]
    rfl
  · intro hlen
    rw [h1, lastTen, hlen, Nat.sub_self, List.drop_zero]

theorem clean_phone_last_ten_witness :
    clean_phone "98765432109876543210" =
      ⟨"98765432109876543210".data.drop ("98765432109876543210".data.length - 10)⟩ ∧
    clean_phone "9876543210" = "9876543210" :=
  ⟨(clean_phone_last_ten "98765432109876543210" (by decide)).1 (by decide),
   (clean_phone_last_ten "9876543210" (by decide)).2 (by decide)⟩

/-- C1: the merged output has exactly one row per filtered lead row — the left
joins drop nothing and duplicate nothing, because each of the five call-side
tables carries at most one row per normalized phone key. -/
theorem merge_preserves_cardinality (mis : List MisRaw) (sel : List String)
    (cdr : List CdrRow) :
    (finalTable mis sel cdr).length = (misFiltered mis sel).length ∧
    ((attemptTable cdr).map Prod.fst).Nodup ∧
    ((connectedTable cdr).map Prod.fst).Nodup ∧
    ((firstTable cdr).map Prod.fst).Nodup ∧
    ((lastTable cdr).map Prod.fst).Nodup ∧
    ((lastDispoTable cdr).map (fun r => r.phone)).Nodup := by
  refine ⟨?_, attemptTable_keys_nodup cdr, connectedTable_keys_nodup cdr,
    firstTable_keys_nodup cdr, lastTable_keys_nodup cdr, lastDispoTable_keys_nodup cdr⟩
  rw [finalTable_eq_map, List.length_map]

/-- C6: every merged row satisfies
`Total_Attempts = Connected_Attempts + NotConnected_Attempts`, the unmatched
(default-filled) rows included. -/
theorem attempts_conservation (mis : List MisRaw) (sel : List String)
    (cdr : List CdrRow) (row : FinalRow) (hrow : row ∈ finalTable mis sel cdr) :
    (row.totalAttempts : Int) = (row.connectedAttempts : Int) + row.notConnectedAttempts := by
  rw [finalTable_eq_map] at hrow
  rcases List.mem_map.mp hrow with ⟨m, _, rfl⟩
  simp only [lookupRow, fillDefaults]
  omega

theorem attempts_conservation_witness :
    (rowEx.totalAttempts : Int) = (rowEx.connectedAttempts : Int) + rowEx.notConnectedAttempts :=
  attempts_conservation misEx ["Acme"] cdrEx rowEx (by decide)

/-- C9: the connection-rate metric is `connected / total * 100` exactly when
the total-attempts sum is strictly positive (so the quotient's denominator is
never zero) and is the literal 0 when the sum is zero. -/
theorem connection_rate_guard (f : List FinalRow) :
    (totalCallsMetric f = 0 → connectionRate f = 0) ∧
    (0 < totalCallsMetric f →
      connectionRate f * (totalCallsMetric f : ℚ) = (connectedCallsMetric f : ℚ) * 100) := by
  constructor
  · intro h
    rw [connectionRate, if_neg (by omega)]
  · intro h
    rw [connectionRate, if_pos h]
    have hne : (totalCallsMetric f : ℚ) ≠ 0 := Nat.cast_ne_zero.mpr (by omega)
    field_simp

theorem connection_rate_guard_witness :
    connectionRate (finalTable misEx ["Acme"] cdrEx) *
        (totalCallsMetric (finalTable misEx ["Acme"] cdrEx) : ℚ) =
      (connectedCallsMetric (finalTable misEx ["Acme"] cdrEx) : ℚ) * 100 :=
  (connection_rate_guard (finalTable misEx ["Acme"] cdrEx)).2 (by decide)

/-- C4: a missing required column makes the run halt with a schema error naming
exactly the first missing column in required-column order — for the MIS table
and, when the MIS table passes and a provider is selected, for the CDR table —
and the run then produces no output rows at all. -/
theorem schema_validation_first_missing (parseDT : String → Option Int)
    (misCols cdrCols : List String) (mis : List MisRaw) (cdrRaw : List CdrRaw)
    (sel : List String) (c : String) :
    (firstMissing requiredMisCols misCols = some c →
      runAnalysis parseDT misCols mis cdrCols cdrRaw sel = .error (.schema "MIS" c)) ∧
    (firstMissing requiredMisCols misCols = none → sel.isEmpty = false →
      firstMissing requiredCdrCols cdrCols = some c →
      runAnalysis parseDT misCols mis cdrCols cdrRaw sel = .error (.schema "CDR" c)) := by
  constructor
  · intro h
    simp [runAnalysis, h]
  · intro h1 h2 h3
    simp [runAnalysis, h1, h2, h3]

theorem schema_validation_first_missing_witness :
    runAnalysis (fun _ => none) [] [] [] [] [] = .error (.schema "MIS" "CorporateName") ∧
    runAnalysis (fun _ => none) requiredMisCols [] [] [] ["Acme"] =
      .error (.schema "CDR" "Customer Number") :=
  ⟨(schema_validation_first_missing (fun _ => none) [] [] [] [] [] "CorporateName").1
      (by decide),
   (schema_validation_first_missing (fun _ => none) requiredMisCols [] [] [] ["Acme"]
      "Customer Number").2 (by decide) (by decide) (by decide)⟩

/-- C2 as stated is false: the code fills only the two count columns with 0;
no "No Call" string is ever written.  On a lead with no matching call the
output's disposition field is the missing value, not `"No Call"`. -/
theorem no_call_default_counterexample :
    (finalTable [⟨some "Acme", "12345"⟩] ["Acme"] []).map FinalRow.lastDisposition = [none] ∧
    (none : Option String) ≠ some "No Call" := by
  constructor
  · rfl
  · intro h
    cases h

/-- C2 amended: a lead whose normalized phone matches no surviving call record
appears with `Total_Attempts = 0`, `Connected_Attempts = 0`,
`NotConnected_Attempts = 0`, and with every other call-derived column left as
the missing value (pandas NaN) — not the literal string "No Call". -/
theorem unmatched_lead_defaults (mis : List MisRaw) (sel : List String)
    (cdr : List CdrRow) (row : FinalRow) (hrow : row ∈ finalTable mis sel cdr)
    (hno : callsFor cdr row.phone = []) :
    row.totalAttempts = 0 ∧ row.connectedAttempts = 0 ∧ row.notConnectedAttempts = 0 ∧
    row.lastDisposition = none ∧ row.lastCallStatus = none ∧
    row.firstCallDate = none ∧ row.lastCallDate = none := by
  rw [finalTable_eq_map] at hrow
  rcases List.mem_map.mp hrow with ⟨m, _, rfl⟩
  have hno' : callsFor cdr (clean_phone m.contactNo) = [] := hno
  have hA : (attemptTable cdr).find? (fun x => x.1 == clean_phone m.contactNo) = none := by
    rw [attemptTable_find?, if_pos hno']
  have hC : (connectedTable cdr).find? (fun x => x.1 == clean_phone m.contactNo) = none := by
    rw [connectedTable, attemptTable_find?, if_pos (by rw [callsFor_answeredOnly, hno']; rfl)]
  have hF : (firstTable cdr).find? (fun x => x.1 == clean_phone m.contactNo) = none := by
    rw [firstTable_find?, hno']
    rfl
  have hL : (lastTable cdr).find? (fun x => x.1 == clean_phone m.contactNo) = none := by
    rw [lastTable_find?, hno']
    rfl
  have hD : (lastDispoTable cdr).find? (fun r => r.phone == clean_phone m.contactNo) = none :=
    lastDispoTable_find?_none cdr _ hno'
  simp [lookupRow, fillDefaults, hA, hC, hF, hL, hD]

theorem unmatched_lead_defaults_witness :
    ∃ row ∈ finalTable [⟨some "Acme", "12345"⟩] ["Acme"] cdrEx,
      row.totalAttempts = 0 ∧ row.lastDisposition = none := by
  refine ⟨⟨⟨some "Acme", "12345"⟩, "12345", 0, 0, none, none, none, none, 0⟩, by decide, ?_⟩
  have h := unmatched_lead_defaults [⟨some "Acme", "12345"⟩] ["Acme"] cdrEx
    ⟨⟨some "Acme", "12345"⟩, "12345", 0, 0, none, none, none, none, 0⟩ (by decide) (by decide)
  exact ⟨h.1, h.2.2.2.1⟩

/-- C3 is a code bug: the claim (and the spec's invariant) say a call record
whose customer number has no digits is dropped before aggregation and can
match no lead.  In the code `clean_phone` turns such a number into the empty
string — never a missing value — so `dropna(subset=["phone", ...])` drops
nothing, the record survives, and it matches any lead whose contact number
also has no digits (both keys are "").  Below, the digit-less call "N/A"
survives preparation and gives the digit-less lead "unknown" a
`Total_Attempts` of 1 where the claim requires 0. -/
theorem digitless_call_survives_and_matches :
    prepCdr parseEx [⟨"N/A", "Answered", "D1", "2024-01-01", "10:00"⟩] =
      [⟨"", "Answered", "D1", 0⟩] ∧
    (finalTable [⟨some "Acme", "unknown"⟩] ["Acme"]
        (prepCdr parseEx [⟨"N/A", "Answered", "D1", "2024-01-01", "10:00"⟩])).map
      FinalRow.totalAttempts = [1] := by
  constructor
  · rfl
  · rfl

/-- C10: in every merged row the connected count is at most the total count —
the connected group counts a subset of the attempt group — and therefore
`NotConnected_Attempts` is never negative, unmatched leads included. -/
theorem connected_le_total (mis : List MisRaw) (sel : List String)
    (cdr : List CdrRow) (row : FinalRow) (hrow : row ∈ finalTable mis sel cdr) :
    row.connectedAttempts ≤ row.totalAttempts ∧ 0 ≤ row.notConnectedAttempts := by
  rw [finalTable_eq_map] at hrow
  rcases List.mem_map.mp hrow with ⟨m, _, rfl⟩
  have hle :
      ((((connectedTable cdr).find? (fun x => x.1 == clean_phone m.contactNo)).map
        Prod.snd).getD 0) ≤
      ((((attemptTable cdr).find? (fun x => x.1 == clean_phone m.contactNo)).map
        Prod.snd).getD 0) := by
    rw [connectedTable, attemptTable_find?, attemptTable_find?, callsFor_answeredOnly]
    by_cases hA : callsFor cdr (clean_phone m.contactNo) = []
    · simp [hA]
    · rw [if_neg hA]
      by_cases hB :
          (callsFor cdr (clean_phone m.contactNo)).filter
            (fun r => r.callStatus == "Answered") = []
      · simp [hB]
      · rw [if_neg hB]
        simpa using List.length_filter_le _ _
  constructor
  · simpa [lookupRow, fillDefaults] using hle
  · simp only [lookupRow, fillDefaults]
    omega

theorem connected_le_total_witness :
    rowEx.connectedAttempts ≤ rowEx.totalAttempts ∧ 0 ≤ rowEx.notConnectedAttempts :=
  connected_le_total misEx ["Acme"] cdrEx rowEx (by decide)

/-! ### The maximum-timestamp property of the last-disposition projection -/

lemma foldl_max_bounds (xs : List Int) :
    ∀ x : Int, x ≤ xs.foldl max x ∧ ∀ y ∈ xs, y ≤ xs.foldl max x := by
  induction xs with
  | nil =>
    intro x
    exact ⟨le_refl x, by intro y hy; cases hy⟩
  | cons a t ih =>
    intro x
    obtain ⟨h1, h2⟩ := ih (max x a)
    refine ⟨le_trans (le_max_left x a) h1, ?_⟩
    intro y hy
    rcases List.mem_cons.mp hy with rfl | hy'
    · exact le_trans (le_max_right x y) h1
    · exact h2 y hy'

lemma foldl_max_mem (xs : List Int) :
    ∀ x : Int, xs.foldl max x = x ∨ xs.foldl max x ∈ xs := by
  induction xs with
  | nil =>
    intro x
    exact Or.inl rfl
  | cons a t ih =>
    intro x
    rcases ih (max x a) with h | h
    · rcases max_choice x a with hm | hm
      · exact Or.inl (h.trans hm)
      · exact Or.inr (List.mem_cons.mpr (Or.inl (h.trans hm)))
    · exact Or.inr (List.mem_cons_of_mem a h)

lemma listMax_eq_of_max (xs : List Int) (m : Int) (hmem : m ∈ xs)
    (hle : ∀ y ∈ xs, y ≤ m) : listMax xs = some m := by
  cases xs with
  | nil => cases hmem
  | cons x t =>
    rw [listMax]
    congr 1
    have hb := foldl_max_bounds t x
    refine le_antisymm ?_ ?_
    · rcases foldl_max_mem t x with h | h
      · rw [h]
        exact hle x (List.mem_cons_self x t)
      · exact hle _ (List.mem_cons_of_mem x h)
    · rcases List.mem_cons.mp hmem with rfl | hmt
      · exact hb.1
      · exact hb.2 m hmt

lemma sorted_find?_max (l : List CdrRow) (p : String) (r : CdrRow)
    (hs : List.Sorted cdrGE l) (hf : l.find? (fun x => x.phone == p) = some r) :
    ∀ x ∈ l, x.phone = p → x.datetime ≤ r.datetime := by
  induction l with
  | nil => cases hf
  | cons a t ih =>
    rcases List.sorted_cons.mp hs with ⟨ha, ht⟩
    by_cases hap : a.phone = p
    · rw [List.find?_cons_of_pos _ (by simpa using hap)] at hf
      injection hf with hf
      subst hf
      intro x hx _
      rcases List.mem_cons.mp hx with rfl | hx'
      · exact le_refl _
      · exact ha x hx'
    · rw [List.find?_cons_of_neg _ (by simpa using hap)] at hf
      intro x hx hxp
      rcases List.mem_cons.mp hx with rfl | hx'
      · exact absurd hxp hap
      · exact ih ht hf x hx' hxp

/-- C7: when the last-disposition table carries a row for a phone key, that
row is one of the key's surviving calls and bears the maximum surviving
timestamp for the key — the descending sort followed by keeping the first row
per phone selects a maximum-timestamp row, so the attached
`Disposition Name` / `Call Status` values come from a chronologically last
call. -/
theorem last_disposition_max_timestamp (cdr : List CdrRow) (p : String) (r : CdrRow)
    (hf : (lastDispoTable cdr).find? (fun x => x.phone == p) = some r) :
    r.phone = p ∧ r ∈ callsFor cdr p ∧
      listMax ((callsFor cdr p).map (fun x => x.datetime)) = some r.datetime := by
  rw [lastDispoTable, dedupByPhone_find? _ _ _ (by simp)] at hf
  have hrmem : r ∈ sortDesc cdr := List.mem_of_find?_eq_some hf
  have hrp : r.phone = p := by simpa using List.find?_some hf
  have hmax := sorted_find?_max (sortDesc cdr) p r (List.sorted_insertionSort cdrGE cdr) hf
  have hperm := List.perm_insertionSort cdrGE cdr
  have hrcdr : r ∈ cdr := hperm.mem_iff.mp hrmem
  have hrcalls : r ∈ callsFor cdr p := List.mem_filter.mpr ⟨hrcdr, by simpa using hrp⟩
  refine ⟨hrp, hrcalls, ?_⟩
  apply listMax_eq_of_max
  · exact List.mem_map_of_mem _ hrcalls
  · intro y hy
    rcases List.mem_map.mp hy with ⟨x, hx, rfl⟩
    rcases List.mem_filter.mp hx with ⟨hxc, hxp⟩
    exact hmax x (hperm.mem_iff.mpr hxc) (by simpa using hxp)

theorem last_disposition_max_timestamp_witness :
    (⟨"9876543210", "No Answer", "D2", 25⟩ : CdrRow).phone = "9876543210" ∧
    (⟨"9876543210", "No Answer", "D2", 25⟩ : CdrRow) ∈ callsFor cdrEx "9876543210" ∧
    listMax ((callsFor cdrEx "9876543210").map (fun x => x.datetime)) = some 25 :=
  last_disposition_max_timestamp cdrEx "9876543210"
    ⟨"9876543210", "No Answer", "D2", 25⟩ (by decide)

/-! ### Filtering the call table commutes with the whole aggregation

The (stable) sort commutes with a row filter, and a per-key group is unchanged
by any filter that keeps all rows of that key. -/

lemma orderedInsert_all_le {α : Type} (r : α → α → Prop) [DecidableRel r]
    (a : α) (l : List α) (h : ∀ x ∈ l, r a x) :
    List.orderedInsert r a l = a :: l := by
  cases l with
  | nil => rfl
  | cons b t => rw [List.orderedInsert, if_pos (h b (List.mem_cons_self b t))]

lemma filter_orderedInsert {α : Type} (r : α → α → Prop) [DecidableRel r]
    [IsTotal α r] [IsTrans α r] (q : α → Bool) (a : α) (l : List α)
    (hs : List.Sorted r l) :
    (List.orderedInsert r a l).filter q =
      if q a then List.orderedInsert r a (l.filter q) else l.filter q := by
  induction l with
  | nil =>
    rw [List.orderedInsert_nil]
    by_cases hqa : q a = true
    · rw [List.filter_cons_of_pos hqa, if_pos hqa, List.filter_nil, List.orderedInsert_nil]
    · rw [List.filter_cons_of_neg hqa, if_neg hqa]
  | cons b t ih =>
    rcases List.sorted_cons.mp hs with ⟨hb, ht⟩
    rw [List.orderedInsert]
    by_cases hab : r a b
    · rw [if_pos hab]
      by_cases hqa : q a = true
      · rw [List.filter_cons_of_pos hqa, if_pos hqa]
        refine (orderedInsert_all_le r a _ ?_).symm
        intro x hx
        have hx' := List.mem_of_mem_filter hx
        rcases List.mem_cons.mp hx' with rfl | hxt
        · exact hab
        · exact IsTrans.trans _ _ _ hab (hb x hxt)
      · rw [List.filter_cons_of_neg hqa, if_neg hqa]
    · rw [if_neg hab]
      by_cases hqb : q b = true
      · rw [List.filter_cons_of_pos hqb, ih ht, List.filter_cons_of_pos hqb]
        by_cases hqa : q a = true
        · rw [if_pos hqa, if_pos hqa, List.orderedInsert, if_neg hab]
        · rw [if_neg hqa, if_neg hqa]
      · rw [List.filter_cons_of_neg hqb, ih ht, List.filter_cons_of_neg hqb]

lemma filter_insertionSort {α : Type} (r : α → α → Prop) [DecidableRel r]
    [IsTotal α r] [IsTrans α r] (q : α → Bool) (l : List α) :
    (List.insertionSort r l).filter q = List.insertionSort r (l.filter q) := by
  induction l with
  | nil => rfl
  | cons a t ih =>
    rw [List.insertionSort,
      filter_orderedInsert r q a _ (List.sorted_insertionSort r t)]
    by_cases hqa : q a = true
    · rw [if_pos hqa, ih, List.filter_cons_of_pos hqa, List.insertionSort]
    · rw [if_neg hqa, ih, List.filter_cons_of_neg hqa]

lemma find?_filter_of_imp {α : Type} (l : List α) (pred q : α → Bool)
    (h : ∀ x, pred x = true → q x = true) :
    (l.filter q).find? pred = l.find? pred := by
  induction l with
  | nil => rfl
  | cons a t ih =>
    by_cases hqa : q a = true
    · rw [List.filter_cons_of_pos hqa]
      by_cases hpa : pred a = true
      · rw [List.find?_cons_of_pos _ hpa, List.find?_cons_of_pos _ hpa]
      · rw [List.find?_cons_of_neg _ hpa, List.find?_cons_of_neg _ hpa]
        exact ih
    · have hpa : ¬ pred a = true := fun hp => hqa (h a hp)
      rw [List.filter_cons_of_neg hqa, List.find?_cons_of_neg _ hpa]
      exact ih

lemma callsFor_filter_of_imp (cdr : List CdrRow) (q : CdrRow → Bool) (p : String)
    (h : ∀ r : CdrRow, r.phone = p → q r = true) :
    callsFor (cdr.filter q) p = callsFor cdr p := by
  induction cdr with
  | nil => rfl
  | cons r rest ih =>
    simp only [callsFor] at ih ⊢
    by_cases hq : q r = true
    · by_cases hp : (r.phone == p) = true
      · simp [List.filter_cons, hq, hp, ih]
      · simp [List.filter_cons, hq, hp, ih]
    · have hp : (r.phone == p) = false := by
        rcases Bool.eq_false_or_eq_true (r.phone == p) with hb | hb
        · exact absurd (h r (by simpa using hb)) hq
        · exact hb
      simp [List.filter_cons, hq, hp, ih]

/-- C8: aggregating over ALL call rows and left-joining onto the filtered
leads yields the very same final table as first restricting the call table to
the filtered leads' phone keys — unmatched call-side keys are simply never
looked up by the left join. -/
theorem prefilter_calls_equal (mis : List MisRaw) (sel : List String)
    (cdr : List CdrRow) :
    finalTable mis sel
        (cdr.filter (fun r => (leadPhones mis sel).contains r.phone)) =
      finalTable mis sel cdr := by
  rw [finalTable_eq_map, finalTable_eq_map]
  apply List.map_congr_left
  intro m hm
  have hp : clean_phone m.contactNo ∈ leadPhones mis sel :=
    List.mem_map_of_mem _ hm
  have himp : ∀ r : CdrRow, r.phone = clean_phone m.contactNo →
      ((leadPhones mis sel).contains r.phone) = true := by
    intro r hr
    rw [hr]
    simpa using hp
  have hcalls := callsFor_filter_of_imp cdr _ _ himp
  have h1 : (attemptTable (cdr.filter (fun r => (leadPhones mis sel).contains r.phone))).find?
        (fun x => x.1 == clean_phone m.contactNo) =
      (attemptTable cdr).find? (fun x => x.1 == clean_phone m.contactNo) := by
    rw [attemptTable_find?, attemptTable_find?, hcalls]
  have h2 : (connectedTable (cdr.filter (fun r => (leadPhones mis sel).contains r.phone))).find?
        (fun x => x.1 == clean_phone m.contactNo) =
      (connectedTable cdr).find? (fun x => x.1 == clean_phone m.contactNo) := by
    rw [connectedTable, connectedTable, attemptTable_find?, attemptTable_find?,
      callsFor_answeredOnly, callsFor_answeredOnly, hcalls]
  have h3 : (firstTable (cdr.filter (fun r => (leadPhones mis sel).contains r.phone))).find?
        (fun x => x.1 == clean_phone m.contactNo) =
      (firstTable cdr).find? (fun x => x.1 == clean_phone m.contactNo) := by
    rw [firstTable_find?, firstTable_find?, hcalls]
  have h4 : (lastTable (cdr.filter (fun r => (leadPhones mis sel).contains r.phone))).find?
        (fun x => x.1 == clean_phone m.contactNo) =
      (lastTable cdr).find? (fun x => x.1 == clean_phone m.contactNo) := by
    rw [lastTable_find?, lastTable_find?, hcalls]
  have h5 : (lastDispoTable (cdr.filter (fun r => (leadPhones mis sel).contains r.phone))).find?
        (fun r => r.phone == clean_phone m.contactNo) =
      (lastDispoTable cdr).find? (fun r => r.phone == clean_phone m.contactNo) := by
    rw [lastDispoTable, lastDispoTable,
      dedupByPhone_find? _ _ _ (by simp), dedupByPhone_find? _ _ _ (by simp),
      sortDesc, sortDesc, ← filter_insertionSort,
      find?_filter_of_imp _ _ _ (fun x hx => himp x (by simpa using hx))]
  simp only [lookupRow, h1, h2, h3, h4, h5]

end LeadTool
